import Mathlib

/-!
Verification of the txoutbox transactional-outbox library.

This file shallowly embeds the parts of the Go sources that the checked
properties concern:

* `Exponential` — the capped exponential backoff from `relay.go`;
* the relay control loop (`Relay.Run`, `Relay.processOnce`,
  `Relay.handleFailure` from `relay.go`), modelled as pure functions that
  produce a trace of hook emissions and store calls, parameterised by
  oracle behaviours for the `Sender` and the `Store`;
* the SQL store adapters (`stores/postgres_store.go`,
  `stores/sqlite_store.go` and the MySQL adapter), modelled as functions
  on a list of outbox rows sorted by ascending `id`.

Timestamps and `time.Duration` values are `int64` nanosecond counts in Go
and are modelled as `ℤ`.  `time.Time.UTC()` changes only the display
location of an instant, so it is the identity on instants here.
-/

namespace Txoutbox

/-- The `float64` accumulator `d` of `Exponential` in `relay.go`, modelled
as an exact fraction (numerator over a natural denominator).  The claims
checked here only evaluate the accumulator at values that `float64`
represents exactly, and the universal properties proved about
`Exponential` do not depend on rounding of the products, so the exact
model is faithful for them. -/
structure GoFloat where
  num : ℤ
  den : ℕ
  deriving DecidableEq

/-- `float64(base)` — the conversion of an `int64` duration to the
accumulator.  (Exact in the model; exact in Go for |base| < 2^53.) -/
def GoFloat.ofInt (n : ℤ) : GoFloat := ⟨n, 1⟩

/-- `d *= factor` on the accumulator. -/
def GoFloat.mul (a b : GoFloat) : GoFloat := ⟨a.num * b.num, a.den * b.den⟩

/-- Go converts `float64` to `time.Duration` (`int64`) by truncation
toward zero when the truncated value is representable in `int64`; for an
out-of-range value the conversion succeeds but the result is
implementation-dependent (Go spec, "Conversions between numeric types").
The model computes exact truncation (`Int.tdiv` on the fraction with
positive denominator), which agrees with Go exactly on in-range values;
a theorem whose conclusion depends on the converted values therefore
restricts itself to parameters under which every conversion the code
performs is in range (`expSafe` below). -/
def GoFloat.trunc (a : GoFloat) : ℤ := Int.tdiv a.num (a.den : ℤ)

/-- The rational value of the accumulator, used in proofs. -/
def GoFloat.toRat (a : GoFloat) : ℚ := (a.num : ℚ) / (a.den : ℚ)

/-- The loop of `Exponential` in `relay.go`:
`for i := 1; i < attempt; i++ { d *= factor; if time.Duration(d) >= max { return max } }`.
The fuel argument is the remaining number of iterations; `none` models the
early `return max`, `some d` is the accumulator after the loop. -/
def expIter (factor : GoFloat) (mx : ℤ) : ℕ → GoFloat → Option GoFloat
  | 0, d => some d
  | n + 1, d =>
    let d2 := d.mul factor
    if mx ≤ d2.trunc then none else expIter factor mx n d2

/-- The clamp at the end of `Exponential`:
`if delay > max { return max }; if delay < base { return base }; return delay`. -/
def expClamp (base mx v : ℤ) : ℤ :=
  if mx < v then mx else if v < base then base else v

/-- Combine an `expIter` outcome with the final clamp: an early loop exit
returned `max` already, otherwise the truncated accumulator is clamped. -/
def expFinish (base mx : ℤ) : Option GoFloat → ℤ
  | none => mx
  | some d => expClamp base mx d.trunc

/-- `Exponential(base, factor, max)` from `relay.go`, applied to an attempt
number.  `if attempt <= 0 { return base }`; otherwise the accumulator
starts at `float64(base)` and the loop body runs `attempt - 1` times. -/
def Exponential (base : ℤ) (factor : GoFloat) (mx : ℤ) (attempt : ℤ) : ℤ :=
  if attempt ≤ 0 then base
  else expFinish base mx (expIter factor mx (attempt - 1).toNat (GoFloat.ofInt base))

/-! ### Relay model (`relay.go`)

The relay's observable behaviour is a trace of sender invocations, store
calls and hook emissions.  `Sender.Send` and the `Store` methods are
external collaborators; a cycle's interaction with them is modelled by
oracles giving each call's outcome (`none` = success, `some e` = the
returned error).  `Options.Now` is modelled as a stream `nowSeq`: the
`k`-th call to `Now().UTC()` during a cycle returns `nowSeq k`. -/

/-- `txoutbox.Envelope` from `message.go`: a leased outbox row handed to
the sender.  The payload (`json.RawMessage`) is a byte string. -/
structure Envelope where
  id : ℤ
  topic : String
  key : Option String
  payload : List ℕ
  retryCount : ℤ
  createdAt : ℤ
  deriving DecidableEq

/-- One observable step of a relay cycle: a sender invocation, a store
call, or a hook emission (`Hooks` in `relay.go`).  `ε` is the error type
of the collaborators.  `OnCycle`'s duration argument comes from the global
monotonic clock (`time.Since(start)`) and is not modelled. -/
inductive Event (ε : Type) where
  | senderSend (env : Envelope)
  | callSend (id : ℤ) (sendAt : ℤ)
  | callRetry (id : ℤ) (retryCount : ℤ) (nextRetry : ℤ)
  | callFail (id : ℤ) (retryCount : ℤ)
  | hookClaim (batchSize : ℤ) (claimed : ℕ)
  | hookSendSuccess (env : Envelope)
  | hookSendFailure (env : Envelope) (e : ε)
  | hookRetry (env : Envelope) (nextAttempt : ℤ) (delay : ℤ)
  | hookFail (env : Envelope) (attempts : ℤ) (e : ε)
  | hookStoreError (op : String) (id : ℤ) (e : ε)
  | hookCycle
  deriving DecidableEq

/-- Outcomes of the store calls a cycle can make, as oracles on the call
arguments (`none` = the call succeeds, `some e` = it returns error `e`). -/
structure StoreBehavior (ε : Type) where
  claimRes : Except ε (List Envelope)
  sendRes : ℤ → ℤ → Option ε
  retryRes : ℤ → ℤ → ℤ → Option ε
  failRes : ℤ → ℤ → Option ε

/-- The relay options that influence a cycle's trace (`Options` in
`relay.go`).  `backoff` maps an attempt number to a delay; `nowSeq k` is
the value of the `k`-th `Now().UTC()` call of the cycle. -/
structure RelayOptions where
  batchSize : ℤ
  maxAttempts : ℤ
  backoff : ℤ → ℤ
  nowSeq : ℕ → ℤ

/-- `Relay.handleFailure` from `relay.go`: decide retry vs permanent
failure for an envelope whose send returned `sendErr`.  `k` is the index
of the next `Now().UTC()` call; the result is the emitted trace and the
updated index (the retry branch reads the clock once). -/
def handleFailure (opts : RelayOptions) (store : StoreBehavior ε) (env : Envelope)
    (sendErr : ε) (k : ℕ) : List (Event ε) × ℕ :=
  let attempt := env.retryCount + 1
  if opts.maxAttempts ≤ attempt then
    match store.failRes env.id attempt with
    | some err => ([.callFail env.id attempt, .hookStoreError "fail" env.id err], k)
    | none => ([.callFail env.id attempt, .hookFail env attempt sendErr], k)
  else
    let delay := opts.backoff attempt
    let nextRetry := opts.nowSeq k + delay
    match store.retryRes env.id attempt nextRetry with
    | some err => ([.callRetry env.id attempt nextRetry, .hookStoreError "retry" env.id err], k + 1)
    | none => ([.callRetry env.id attempt nextRetry, .hookRetry env attempt delay], k + 1)

/-- One iteration of the envelope loop of `Relay.processOnce`: invoke the
sender; on error emit `OnSendFailure` and run `handleFailure`; on success
call `Store.Send(id, now)` with the cycle's snapshot, emitting
`OnStoreError("send", …)` if that call errors and `OnSendSuccess`
otherwise.  The sender outcome oracle is `sender : Envelope → Option ε`;
the result pairs the iteration's trace with the updated clock index. -/
def processEnv (opts : RelayOptions) (store : StoreBehavior ε)
    (sender : Envelope → Option ε) (now : ℤ) (env : Envelope) (k : ℕ) :
    List (Event ε) × ℕ :=
  match sender env with
  | some e =>
    let hf := handleFailure opts store env e k
    (.senderSend env :: .hookSendFailure env e :: hf.1, hf.2)
  | none =>
    match store.sendRes env.id now with
    | some err =>
      ([.senderSend env, .callSend env.id now, .hookStoreError "send" env.id err], k)
    | none =>
      ([.senderSend env, .callSend env.id now, .hookSendSuccess env], k)

/-- The envelope loop of `Relay.processOnce`: iterate `processEnv` over
the claimed batch in order, threading the clock index. -/
def processEnvs (opts : RelayOptions) (store : StoreBehavior ε)
    (sender : Envelope → Option ε) (now : ℤ) : List Envelope → ℕ → List (Event ε)
  | [], _ => []
  | env :: rest, k =>
    let c := processEnv opts store sender now env k
    c.1 ++ processEnvs opts store sender now rest c.2

/-- `Relay.processOnce` from `relay.go`: claim a batch, dispatch each
envelope, and emit hooks.  The result is the cycle's trace together with
the error `processOnce` returns (`none` = nil).  A claim error returns
immediately with no emission; otherwise `OnClaim` fires, an empty batch
ends the cycle, and a non-empty batch snapshots `now = Now().UTC()` once
(clock call 0) before the envelope loop. -/
def processOnce (opts : RelayOptions) (store : StoreBehavior ε)
    (sender : Envelope → Option ε) : List (Event ε) × Option ε :=
  match store.claimRes with
  | .error e => ([], some e)
  | .ok envs =>
    if envs.isEmpty then
      ([.hookClaim opts.batchSize envs.length, .hookCycle], none)
    else
      (.hookClaim opts.batchSize envs.length
          :: processEnvs opts store sender (opts.nowSeq 0) envs 1 ++ [.hookCycle],
        none)

/-- `Relay.Run` from `relay.go`.  Each loop iteration invokes
`processOnce` (logging, not propagating, its error), then waits on the
poll ticker or the cancellation token.  Cancellation is modelled by its
tick index: `fuel` is the number of ticks that occur before the select
observes `ctx.Done()`, and `cancelErr` is `ctx.Err()`.  `storeSeq i` is
the store behaviour seen by cycle `i`.  The result is `Run`'s return
value paired with the list of per-cycle `processOnce` results. -/
def runLoop (opts : RelayOptions) (storeSeq : ℕ → StoreBehavior ε)
    (sender : Envelope → Option ε) (cancelErr : ε) :
    ℕ → ℕ → ε × List (List (Event ε) × Option ε)
  | 0, i => (cancelErr, [processOnce opts (storeSeq i) sender])
  | fuel + 1, i =>
    let rest := runLoop opts storeSeq sender cancelErr fuel (i + 1)
    (rest.1, processOnce opts (storeSeq i) sender :: rest.2)

/-- `Relay.Run` started at cycle 0. -/
def RelayRun (opts : RelayOptions) (storeSeq : ℕ → StoreBehavior ε)
    (sender : Envelope → Option ε) (cancelErr : ε) (fuel : ℕ) :
    ε × List (List (Event ε) × Option ε) :=
  runLoop opts storeSeq sender cancelErr fuel 0

/-! ### Store model (`stores/postgres_store.go`, `stores/sqlite_store.go`,
the MySQL adapter, and `message.go`)

The outbox table is a list of rows; the adapters' SQL keeps it ordered by
ascending `id` (the `ORDER BY id` of `Claim` and the autoincrement key),
so sortedness is a hypothesis of the theorems.  The statements below model
the success path of each SQL statement; driver/connection failures are
out of scope here (the relay model above covers how store errors are
handled).  `now` is the adapter's injected clock reading (`s.now().UTC()`). -/

/-- The `status` column. -/
inductive Status where
  | pending
  | sending
  | retry
  | sent
  | failed
  deriving DecidableEq

/-- One row of the `txoutbox` table (schema in `postgres/init.sql`). -/
structure Row where
  id : ℤ
  topic : String
  key : Option String
  payload : List ℕ
  status : Status
  retryCount : ℤ
  nextRetryAt : ℤ
  claimedBy : Option String
  claimedAt : Option ℤ
  createdAt : ℤ
  sentAt : Option ℤ
  deriving DecidableEq

/-- The `WHERE` clause of `Claim`'s candidate query:
`status IN ('pending','retry','sending') AND next_retry_at <= now`. -/
def eligible (now : ℤ) (r : Row) : Bool :=
  (r.status == Status.pending || r.status == Status.retry || r.status == Status.sending)
    && decide (r.nextRetryAt ≤ now)

/-- The `SET` clause of `Claim`'s update: `status='sending',
claimed_by=workerID, claimed_at=now, next_retry_at=leaseUntil`. -/
def leaseRow (workerID : String) (now leaseUntil : ℤ) (r : Row) : Row :=
  { r with status := Status.sending, claimedBy := some workerID,
           claimedAt := some now, nextRetryAt := leaseUntil }

/-- `Claim`'s `RETURNING id, topic, key, payload, retry_count, created_at`
projected into an `Envelope`; none of these columns is touched by the
update, so the projection reads the pre-update values. -/
def toEnv (r : Row) : Envelope :=
  { id := r.id, topic := r.topic, key := r.key, payload := r.payload,
    retryCount := r.retryCount, createdAt := r.createdAt }

/-- The candidate CTE of `Claim`: the first `limit` eligible rows in
ascending `id` order (the table is kept id-sorted). -/
def claimSelect (now limit : ℤ) (table : List Row) : List Row :=
  (table.filter (eligible now)).take limit.toNat

/-- `Claim(workerID, limit, leaseTTL)` of the Postgres, SQLite and MySQL
adapters: guard against a non-positive batch size, then lease the
candidate rows (`UPDATE ... WHERE id IN candidates`) and return their
envelopes.  The `ORDER BY id` applies only to the candidate CTE; the row
order of Postgres/SQLite's `UPDATE ... RETURNING` and of MySQL's
un-`ORDER`ed `SELECT ... WHERE id IN (...)` is unspecified, so the order
in which the driver yields the claimed rows is an oracle `retOrder`
(constrained to a permutation of the claimed rows in the theorems).  The
result pairs the table after the call with the returned value. -/
def storeClaim (workerID : String) (limit leaseTTL now : ℤ)
    (retOrder : List Row → List Row) (table : List Row) :
    List Row × Except String (List Envelope) :=
  if limit ≤ 0 then (table, .error "txoutbox: batch size must be positive")
  else
    let candIds := (claimSelect now limit table).map Row.id
    (table.map fun r =>
        if r.id ∈ candIds then leaseRow workerID now (now + leaseTTL) r else r,
      .ok ((retOrder (claimSelect now limit table)).map toEnv))

/-- The row-level effect of `Send(id, sendAt)`: `UPDATE ... SET
status='sent', sent_at=sendAt, claimed_by=NULL, claimed_at=NULL WHERE
id=?` — a plain update with no row-count assertion. -/
def sendRow (id sendAt : ℤ) (r : Row) : Row :=
  if r.id = id then
    { r with status := Status.sent, sentAt := some sendAt,
             claimedBy := none, claimedAt := none }
  else r

/-- `Send(id, sendAt)` applied to the table. -/
def storeSend (id sendAt : ℤ) (table : List Row) : List Row :=
  table.map (sendRow id sendAt)

/-- `txoutbox.Message` from `message.go`.  `Body` is `any` in Go and `nil`
when absent; the body type and its JSON encoding are abstracted (`β`,
`marshal`), since `encoding/json` is external library code. -/
structure Message (β : Type) where
  topic : String
  key : String
  body : Option β

/-- `Message.validate` from `message.go`. -/
def messageValidate (m : Message β) : Option String :=
  if m.topic = "" then some "txoutbox: topic is required"
  else if m.body.isNone then some "txoutbox: body is required"
  else none

/-- `Message.MarshalPayload` from `message.go`: validate, then encode the
body.  `marshal` stands for `json.Marshal` restricted to encodable
bodies. -/
def marshalPayload (marshal : β → List ℕ) (m : Message β) : Except String (List ℕ) :=
  match messageValidate m with
  | some e => .error e
  | none =>
    match m.body with
    | some b => .ok (marshal b)
    | none => .error "txoutbox: body is required"

/-- The id the autoincrement key assigns to the next insert (larger than
every existing id, starting at 1). -/
def nextId (table : List Row) : ℤ :=
  (table.map Row.id).foldr max 0 + 1

/-- `Add(ctx, exec, msg)` of the adapters: marshal the payload, then
`INSERT (topic, key, payload)` — an empty `Message.Key` is inserted as
NULL — with the remaining columns filled by the schema defaults
(`status='pending'`, `retry_count=0`, `next_retry_at=NOW()`,
`created_at=NOW()`, the rest NULL). -/
def storeAdd (marshal : β → List ℕ) (now : ℤ) (m : Message β) (table : List Row) :
    Except String (List Row) :=
  match marshalPayload marshal m with
  | .error e => .error e
  | .ok payload =>
    .ok (table ++ [{ id := nextId table, topic := m.topic,
                     key := if m.key = "" then none else some m.key,
                     payload := payload, status := Status.pending, retryCount := 0,
                     nextRetryAt := now, claimedBy := none, claimedAt := none,
                     createdAt := now, sentAt := none }])

/-! ### Theorems -/

theorem trunc_eq_floor {a : GoFloat} (_hd : 0 < a.den) (h : 0 ≤ a.num) :
    a.trunc = ⌊a.toRat⌋ := by
  unfold GoFloat.trunc GoFloat.toRat
  rw [Rat.floor_intCast_div_natCast]
  exact Int.tdiv_eq_ediv h (by exact_mod_cast Nat.zero_le a.den)

theorem trunc_eq_ceil {a : GoFloat} (hd : 0 < a.den) (h : a.num ≤ 0) :
    a.trunc = ⌈a.toRat⌉ := by
  have h1 : a.trunc = -(GoFloat.trunc ⟨-a.num, a.den⟩) := by
    unfold GoFloat.trunc
    simp [Int.neg_tdiv]
  have h2 : GoFloat.toRat ⟨-a.num, a.den⟩ = -a.toRat := by
    unfold GoFloat.toRat
    push_cast
    ring
  rw [h1, trunc_eq_floor (a := ⟨-a.num, a.den⟩) hd (show (0 : ℤ) ≤ -a.num by omega),
    h2, Int.floor_neg, neg_neg]

/-- C6: the capped exponential backoff with base 100 ms, factor 2 and
cap 1 s returns 100 ms for attempts −1, 0 and 1, 200 ms for attempt 2,
400 ms for attempt 3, and 1 s for attempts 5 and 10 (durations in
nanoseconds). -/
theorem exponential_reference_table :
    Exponential 100000000 ⟨2, 1⟩ 1000000000 (-1) = 100000000 ∧
    Exponential 100000000 ⟨2, 1⟩ 1000000000 0 = 100000000 ∧
    Exponential 100000000 ⟨2, 1⟩ 1000000000 1 = 100000000 ∧
    Exponential 100000000 ⟨2, 1⟩ 1000000000 2 = 200000000 ∧
    Exponential 100000000 ⟨2, 1⟩ 1000000000 3 = 400000000 ∧
    Exponential 100000000 ⟨2, 1⟩ 1000000000 5 = 1000000000 ∧
    Exponential 100000000 ⟨2, 1⟩ 1000000000 10 = 1000000000 := by
  decide

theorem handleFailure_no_sendSuccess {opts : RelayOptions} {store : StoreBehavior ε}
    {env : Envelope} {e : ε} {k : ℕ} (x : Envelope) :
    Event.hookSendSuccess x ∉ (handleFailure opts store env e k).1 := by
  simp only [handleFailure]
  split
  · split <;> simp
  · split <;> simp

theorem handleFailure_no_callSend {opts : RelayOptions} {store : StoreBehavior ε}
    {env : Envelope} {e : ε} {k : ℕ} (i t : ℤ) :
    Event.callSend i t ∉ (handleFailure opts store env e k).1 := by
  simp only [handleFailure]
  split
  · split <;> simp
  · split <;> simp

theorem processEnv_sendSuccess_mem {opts : RelayOptions} {store : StoreBehavior ε}
    {sender : Envelope → Option ε} {now : ℤ} {env : Envelope} {k : ℕ} {x : Envelope}
    (h : Event.hookSendSuccess x ∈ (processEnv opts store sender now env k).1) :
    x = env ∧ sender env = none ∧ store.sendRes env.id now = none := by
  unfold processEnv at h
  cases hse : sender env with
  | some e =>
    rw [hse] at h
    simp only [List.mem_cons] at h
    rcases h with h | h | h
    · exact absurd h (by simp)
    · exact absurd h (by simp)
    · exact absurd h (handleFailure_no_sendSuccess x)
  | none =>
    rw [hse] at h
    cases hsr : store.sendRes env.id now with
    | some err =>
      rw [hsr] at h
      simp at h
    | none =>
      rw [hsr] at h
      simp at h
      exact ⟨h, rfl, rfl⟩

theorem processEnv_callSend_mem {opts : RelayOptions} {store : StoreBehavior ε}
    {sender : Envelope → Option ε} {now : ℤ} {env : Envelope} {k : ℕ} {i t : ℤ}
    (h : Event.callSend i t ∈ (processEnv opts store sender now env k).1) :
    i = env.id ∧ t = now := by
  unfold processEnv at h
  cases hse : sender env with
  | some e =>
    rw [hse] at h
    simp only [List.mem_cons] at h
    rcases h with h | h | h
    · exact absurd h (by simp)
    · exact absurd h (by simp)
    · exact absurd h (handleFailure_no_callSend i t)
  | none =>
    rw [hse] at h
    cases hsr : store.sendRes env.id now with
    | some err =>
      rw [hsr] at h
      simp at h
      exact h
    | none =>
      rw [hsr] at h
      simp at h
      exact h

theorem processEnv_senderSend_self {opts : RelayOptions} {store : StoreBehavior ε}
    {sender : Envelope → Option ε} {now : ℤ} (env : Envelope) (k : ℕ) :
    Event.senderSend env ∈ (processEnv opts store sender now env k).1 := by
  unfold processEnv
  cases sender env with
  | some e => simp
  | none => cases store.sendRes env.id now <;> simp

theorem processEnv_storeError_of_sendRes {opts : RelayOptions} {store : StoreBehavior ε}
    {sender : Envelope → Option ε} {now : ℤ} {env : Envelope} {k : ℕ} {e : ε}
    (hse : sender env = none) (hsr : store.sendRes env.id now = some e) :
    Event.hookStoreError "send" env.id e ∈ (processEnv opts store sender now env k).1 := by
  unfold processEnv
  rw [hse, hsr]
  simp

theorem processEnvs_sendSuccess_mem {opts : RelayOptions} {store : StoreBehavior ε}
    {sender : Envelope → Option ε} {now : ℤ} {x : Envelope} :
    ∀ {l : List Envelope} {k : ℕ},
      Event.hookSendSuccess x ∈ processEnvs opts store sender now l k →
        x ∈ l ∧ sender x = none ∧ store.sendRes x.id now = none := by
  intro l
  induction l with
  | nil => intro k h; simp [processEnvs] at h
  | cons a rest ih =>
    intro k h
    simp only [processEnvs, List.mem_append] at h
    rcases h with h | h
    · obtain ⟨rfl, h2, h3⟩ := processEnv_sendSuccess_mem h
      exact ⟨List.mem_cons_self x rest, h2, h3⟩
    · obtain ⟨h1, h2, h3⟩ := ih h
      exact ⟨List.mem_cons_of_mem a h1, h2, h3⟩

theorem processEnvs_callSend_mem {opts : RelayOptions} {store : StoreBehavior ε}
    {sender : Envelope → Option ε} {now : ℤ} {i t : ℤ} :
    ∀ {l : List Envelope} {k : ℕ},
      Event.callSend i t ∈ processEnvs opts store sender now l k → t = now := by
  intro l
  induction l with
  | nil => intro k h; simp [processEnvs] at h
  | cons a rest ih =>
    intro k h
    simp only [processEnvs, List.mem_append] at h
    rcases h with h | h
    · exact (processEnv_callSend_mem h).2
    · exact ih h

theorem processEnvs_senderSend_mem {opts : RelayOptions} {store : StoreBehavior ε}
    {sender : Envelope → Option ε} {now : ℤ} {x : Envelope} :
    ∀ {l : List Envelope} {k : ℕ}, x ∈ l →
      Event.senderSend x ∈ processEnvs opts store sender now l k := by
  intro l
  induction l with
  | nil => intro k h; simp at h
  | cons a rest ih =>
    intro k h
    simp only [processEnvs, List.mem_append]
    rcases List.mem_cons.mp h with rfl | hmem
    · exact Or.inl (processEnv_senderSend_self x k)
    · exact Or.inr (ih hmem)

theorem processEnvs_storeError_mem {opts : RelayOptions} {store : StoreBehavior ε}
    {sender : Envelope → Option ε} {now : ℤ} {x : Envelope} {e : ε} :
    ∀ {l : List Envelope} {k : ℕ}, x ∈ l → sender x = none →
      store.sendRes x.id now = some e →
      Event.hookStoreError "send" x.id e ∈ processEnvs opts store sender now l k := by
  intro l
  induction l with
  | nil => intro k h; simp at h
  | cons a rest ih =>
    intro k h hse hsr
    simp only [processEnvs, List.mem_append]
    rcases List.mem_cons.mp h with rfl | hmem
    · exact Or.inl (processEnv_storeError_of_sendRes hse hsr)
    · exact Or.inr (ih hmem hse hsr)

/-- C1: for an envelope whose send failed, `handleFailure` computes
`attempt = env.RetryCount + 1`; when `attempt ≥ MaxAttempts` it calls
`Store.Fail(env.ID, attempt)` and emits `OnFail(env, attempt, sendErr)`
exactly when that call succeeds, `OnStoreError("fail", env.ID, err)` when
it fails; otherwise it computes `delay = Backoff(attempt)` and calls
`Store.Retry(env.ID, attempt, Now().UTC() + delay)`, emitting
`OnRetry(env, attempt, delay)` exactly when that call succeeds and
`OnStoreError("retry", env.ID, err)` when it fails.  In neither branch
does the handler propagate an error or stop the cycle: every remaining
envelope of the batch is still dispatched. -/
theorem handleFailure_policy (opts : RelayOptions) (store : StoreBehavior ε)
    (env : Envelope) (sendErr : ε) (k : ℕ) :
    (opts.maxAttempts ≤ env.retryCount + 1 →
      (handleFailure opts store env sendErr k).2 = k ∧
      (store.failRes env.id (env.retryCount + 1) = none →
        (handleFailure opts store env sendErr k).1 =
          [.callFail env.id (env.retryCount + 1),
           .hookFail env (env.retryCount + 1) sendErr]) ∧
      (∀ e, store.failRes env.id (env.retryCount + 1) = some e →
        (handleFailure opts store env sendErr k).1 =
          [.callFail env.id (env.retryCount + 1),
           .hookStoreError "fail" env.id e])) ∧
    (env.retryCount + 1 < opts.maxAttempts →
      (handleFailure opts store env sendErr k).2 = k + 1 ∧
      (store.retryRes env.id (env.retryCount + 1)
          (opts.nowSeq k + opts.backoff (env.retryCount + 1)) = none →
        (handleFailure opts store env sendErr k).1 =
          [.callRetry env.id (env.retryCount + 1)
              (opts.nowSeq k + opts.backoff (env.retryCount + 1)),
           .hookRetry env (env.retryCount + 1) (opts.backoff (env.retryCount + 1))]) ∧
      (∀ e, store.retryRes env.id (env.retryCount + 1)
          (opts.nowSeq k + opts.backoff (env.retryCount + 1)) = some e →
        (handleFailure opts store env sendErr k).1 =
          [.callRetry env.id (env.retryCount + 1)
              (opts.nowSeq k + opts.backoff (env.retryCount + 1)),
           .hookStoreError "retry" env.id e])) ∧
    (∀ (sender : Envelope → Option ε) (now : ℤ) (rest : List Envelope) (x : Envelope),
      sender env = some sendErr → x ∈ rest →
        Event.senderSend x ∈ processEnvs opts store sender now (env :: rest) k) := by
  refine ⟨?_, ?_, ?_⟩
  · intro hmax
    simp only [handleFailure, if_pos hmax]
    refine ⟨?_, ?_, ?_⟩
    · cases store.failRes env.id (env.retryCount + 1) <;> rfl
    · intro hres
      rw [hres]
    · intro e hres
      rw [hres]
  · intro hlt
    simp only [handleFailure, if_neg (by omega : ¬opts.maxAttempts ≤ env.retryCount + 1)]
    refine ⟨?_, ?_, ?_⟩
    · cases store.retryRes env.id (env.retryCount + 1)
        (opts.nowSeq k + opts.backoff (env.retryCount + 1)) <;> rfl
    · intro hres
      rw [hres]
    · intro e hres
      rw [hres]
  · intro sender now rest x _ hx
    exact processEnvs_senderSend_mem (List.mem_cons_of_mem env hx)

/-- Witness for `handleFailure_policy`: a concrete envelope with
`RetryCount = 1` against `MaxAttempts = 5`, a backoff returning 7 and a
clock returning 100 at call 0; the retry store call succeeds. -/
theorem handleFailure_policy_witness :
    (handleFailure (ε := ℕ) ⟨10, 5, fun _ => 7, fun _ => 100⟩
        ⟨Except.ok [], fun _ _ => none, fun _ _ _ => none, fun _ _ => none⟩
        ⟨31, "t", none, [], 1, 0⟩ 9 0).1 =
      [.callRetry 31 2 107, .hookRetry ⟨31, "t", none, [], 1, 0⟩ 2 7] :=
  ((handleFailure_policy ⟨10, 5, fun _ => 7, fun _ => 100⟩
      ⟨Except.ok [], fun _ _ => none, fun _ _ _ => none, fun _ _ => none⟩
      ⟨31, "t", none, [], 1, 0⟩ 9 0).2.1 (by decide)).2.1 rfl

/-- C3: `Run` returns a non-nil result only on cancellation, and then it
returns the token's error, whatever each cycle's `processOnce` outcome
was; every cycle up to cancellation runs `processOnce`, and cycle 0 runs
before the first tick (so even cancellation at the first select leaves
one completed `processOnce`). -/
theorem relayRun_cancellation (opts : RelayOptions) (storeSeq : ℕ → StoreBehavior ε)
    (sender : Envelope → Option ε) (cancelErr : ε) (fuel : ℕ) :
    (RelayRun opts storeSeq sender cancelErr fuel).1 = cancelErr ∧
    (RelayRun opts storeSeq sender cancelErr fuel).2.length = fuel + 1 ∧
    ∀ j : ℕ, j ≤ fuel →
      (RelayRun opts storeSeq sender cancelErr fuel).2[j]? =
        some (processOnce opts (storeSeq j) sender) := by
  have key : ∀ (f i : ℕ),
      (runLoop opts storeSeq sender cancelErr f i).1 = cancelErr ∧
      (runLoop opts storeSeq sender cancelErr f i).2.length = f + 1 ∧
      ∀ j : ℕ, j ≤ f →
        (runLoop opts storeSeq sender cancelErr f i).2[j]? =
          some (processOnce opts (storeSeq (i + j)) sender) := by
    intro f
    induction f with
    | zero =>
      intro i
      refine ⟨rfl, rfl, ?_⟩
      intro j hj
      interval_cases j
      simp [runLoop]
    | succ f ih =>
      intro i
      refine ⟨(ih (i + 1)).1, ?_, ?_⟩
      · simp only [runLoop, List.length_cons]
        rw [(ih (i + 1)).2.1]
      · intro j hj
        cases j with
        | zero =>
          simp [runLoop]
        | succ j =>
          simp only [runLoop, List.getElem?_cons_succ]
          rw [(ih (i + 1)).2.2 j (by omega)]
          have : i + 1 + j = i + (j + 1) := by omega
          rw [this]
  have h := key fuel 0
  refine ⟨h.1, h.2.1, ?_⟩
  intro j hj
  have := h.2.2 j hj
  simpa using this

/-- C5: a cycle whose `Claim` errors returns that error having emitted
nothing; a successful claim emits `OnClaim(batchSize, claimed)` first,
and an empty batch ends the cycle with exactly `OnClaim` and `OnCycle` —
in particular without invoking the sender. -/
theorem processOnce_claim_behaviour (opts : RelayOptions) (store : StoreBehavior ε)
    (sender : Envelope → Option ε) :
    (∀ e, store.claimRes = .error e →
      processOnce opts store sender = ([], some e)) ∧
    (∀ envs, store.claimRes = .ok envs →
      (processOnce opts store sender).2 = none ∧
      (processOnce opts store sender).1.head? =
        some (.hookClaim opts.batchSize envs.length) ∧
      (envs = [] →
        processOnce opts store sender =
          ([.hookClaim opts.batchSize 0, .hookCycle], none))) := by
  constructor
  · intro e he
    simp only [processOnce, he]
  · intro envs he
    simp only [processOnce, he]
    cases envs with
    | nil => simp
    | cons a rest => simp

/-- Witness for `processOnce_claim_behaviour`: a store whose claim fails
with error 7, and one whose claim returns the empty batch. -/
theorem processOnce_claim_behaviour_witness :
    processOnce ⟨5, 3, fun _ => 0, fun _ => 0⟩
        (⟨Except.error 7, fun _ _ => none, fun _ _ _ => none, fun _ _ => none⟩ :
          StoreBehavior ℕ)
        (fun _ => none) = ([], some 7) ∧
    processOnce ⟨5, 3, fun _ => 0, fun _ => 0⟩
        (⟨Except.ok [], fun _ _ => none, fun _ _ _ => none, fun _ _ => none⟩ :
          StoreBehavior ℕ)
        (fun _ => none) = ([.hookClaim 5 0, .hookCycle], none) :=
  ⟨(processOnce_claim_behaviour ⟨5, 3, fun _ => 0, fun _ => 0⟩
        ⟨Except.error 7, fun _ _ => none, fun _ _ _ => none, fun _ _ => none⟩
        (fun _ => none)).1 7 rfl,
    ((processOnce_claim_behaviour ⟨5, 3, fun _ => 0, fun _ => 0⟩
        ⟨Except.ok [], fun _ _ => none, fun _ _ _ => none, fun _ _ => none⟩
        (fun _ => none)).2 [] rfl).2.2 rfl⟩

/-- C4: within a cycle whose claim succeeded, an envelope whose transport
send succeeds but whose `Store.Send` errors yields
`OnStoreError("send", env.ID, err)` and no `OnSendSuccess` for that
envelope; every envelope of the batch is still dispatched; the cycle
still returns success; and every `Store.Send` of the cycle is passed the
single `Now().UTC()` snapshot (clock call 0). -/
theorem processOnce_storeSendError (opts : RelayOptions) (store : StoreBehavior ε)
    (sender : Envelope → Option ε) (envs : List Envelope)
    (hclaim : store.claimRes = .ok envs) :
    (processOnce opts store sender).2 = none ∧
    (∀ env ∈ envs, Event.senderSend env ∈ (processOnce opts store sender).1) ∧
    (∀ env ∈ envs, ∀ e, sender env = none →
      store.sendRes env.id (opts.nowSeq 0) = some e →
      Event.hookStoreError "send" env.id e ∈ (processOnce opts store sender).1 ∧
      Event.hookSendSuccess env ∉ (processOnce opts store sender).1) ∧
    (∀ i t, Event.callSend i t ∈ (processOnce opts store sender).1 →
      t = opts.nowSeq 0) := by
  simp only [processOnce, hclaim]
  by_cases hemp : envs.isEmpty
  · rw [if_pos hemp]
    have : envs = [] := List.isEmpty_iff.mp hemp
    subst this
    refine ⟨rfl, ?_, ?_, ?_⟩
    · intro env h; simp at h
    · intro env h; simp at h
    · intro i t h; simp at h
  · rw [if_neg hemp]
    refine ⟨rfl, ?_, ?_, ?_⟩
    · intro env hmem
      exact List.mem_cons_of_mem _
        (List.mem_append_left _ (processEnvs_senderSend_mem hmem))
    · intro env hmem e hse hsr
      constructor
      · exact List.mem_cons_of_mem _
          (List.mem_append_left _ (processEnvs_storeError_mem hmem hse hsr))
      · intro hmem2
        rcases List.mem_cons.mp hmem2 with h | h
        · exact absurd h (by simp)
        rcases List.mem_append.mp h with h | h
        · have h2 := (processEnvs_sendSuccess_mem h).2.2
          rw [hsr] at h2
          exact absurd h2 (by simp)
        · exact absurd (List.mem_singleton.mp h) (by simp)
    · intro i t h
      rcases List.mem_cons.mp h with h | h
      · exact absurd h (by simp)
      rcases List.mem_append.mp h with h | h
      · exact processEnvs_callSend_mem h
      · exact absurd (List.mem_singleton.mp h) (by simp)

/-- Witness for `processOnce_storeSendError`: a two-envelope batch where
the first envelope's `Store.Send` fails with error 3 while the second
succeeds; the trace records the store error, no success for envelope 1,
dispatch of both envelopes, and the snapshot timestamp 55 on every
`Store.Send`. -/
theorem processOnce_storeSendError_witness :
    (processOnce ⟨2, 3, fun _ => 0, fun _ => 55⟩
        (⟨Except.ok [⟨1, "a", none, [], 0, 0⟩, ⟨2, "b", none, [], 0, 0⟩],
          fun i _ => if i = 1 then some 3 else none,
          fun _ _ _ => none, fun _ _ => none⟩ : StoreBehavior ℕ)
        (fun _ => none)).2 = none ∧
    Event.hookStoreError "send" 1 3 ∈
      (processOnce ⟨2, 3, fun _ => 0, fun _ => 55⟩
        (⟨Except.ok [⟨1, "a", none, [], 0, 0⟩, ⟨2, "b", none, [], 0, 0⟩],
          fun i _ => if i = 1 then some 3 else none,
          fun _ _ _ => none, fun _ _ => none⟩ : StoreBehavior ℕ)
        (fun _ => none)).1 ∧
    Event.hookSendSuccess ⟨1, "a", none, [], 0, 0⟩ ∉
      (processOnce ⟨2, 3, fun _ => 0, fun _ => 55⟩
        (⟨Except.ok [⟨1, "a", none, [], 0, 0⟩, ⟨2, "b", none, [], 0, 0⟩],
          fun i _ => if i = 1 then some 3 else none,
          fun _ _ _ => none, fun _ _ => none⟩ : StoreBehavior ℕ)
        (fun _ => none)).1 ∧
    Event.senderSend ⟨2, "b", none, [], 0, 0⟩ ∈
      (processOnce ⟨2, 3, fun _ => 0, fun _ => 55⟩
        (⟨Except.ok [⟨1, "a", none, [], 0, 0⟩, ⟨2, "b", none, [], 0, 0⟩],
          fun i _ => if i = 1 then some 3 else none,
          fun _ _ _ => none, fun _ _ => none⟩ : StoreBehavior ℕ)
        (fun _ => none)).1 := by
  have h := processOnce_storeSendError ⟨2, 3, fun _ => 0, fun _ => 55⟩
    ⟨Except.ok [⟨1, "a", none, [], 0, 0⟩, ⟨2, "b", none, [], 0, 0⟩],
      fun i _ => if i = 1 then some 3 else none,
      fun _ _ _ => none, fun _ _ => none⟩
    (fun _ => none) [⟨1, "a", none, [], 0, 0⟩, ⟨2, "b", none, [], 0, 0⟩] rfl
  have h1 := h.2.2.1 ⟨1, "a", none, [], 0, 0⟩ (by simp) 3 rfl (by decide)
  exact ⟨h.1, h1.1, h1.2, h.2.1 ⟨2, "b", none, [], 0, 0⟩ (by simp)⟩

/-- C10: every adapter's `Claim` (Postgres, MySQL, SQLite all begin with
the same guard) rejects a non-positive batch size with the error
`txoutbox: batch size must be positive` before touching the database, so
the table is unchanged — whatever order the driver would have returned
rows in. -/
theorem storeClaim_nonpositive_limit (workerID : String) (limit leaseTTL now : ℤ)
    (retOrder : List Row → List Row) (table : List Row) (h : limit ≤ 0) :
    storeClaim workerID limit leaseTTL now retOrder table =
      (table, .error "txoutbox: batch size must be positive") := by
  simp only [storeClaim, if_pos h]

/-- Witness for `storeClaim_nonpositive_limit` at limit 0 on a
non-empty table. -/
theorem storeClaim_nonpositive_limit_witness :
    storeClaim "w" 0 60 9 (fun l => l)
        [⟨1, "t", none, [], Status.pending, 0, 0, none, none, 0, none⟩] =
      ([⟨1, "t", none, [], Status.pending, 0, 0, none, none, 0, none⟩],
        .error "txoutbox: batch size must be positive") :=
  storeClaim_nonpositive_limit "w" 0 60 9 (fun l => l)
    [⟨1, "t", none, [], Status.pending, 0, 0, none, none, 0, none⟩] (by decide)

theorem sendRow_idem (id sendAt : ℤ) (r : Row) :
    sendRow id sendAt (sendRow id sendAt r) = sendRow id sendAt r := by
  by_cases h : r.id = id
  · simp [sendRow, h]
  · simp [sendRow, h]

/-- C9: `Store.Send` is idempotent — repeating `Send(id, sentAt)` leaves
the table exactly as one call does; on the targeted row it yields
`status = sent` with `claimed_by`/`claimed_at` null (and the immutable
fields untouched), so an already-sent row does not regress; and when no
row has the id the update is a no-op rather than an error (plain UPDATE,
no row-count assertion). -/
theorem storeSend_idempotent (id sendAt : ℤ) (table : List Row) :
    storeSend id sendAt (storeSend id sendAt table) = storeSend id sendAt table ∧
    (∀ r ∈ table, r.id = id → r.status = Status.sent →
      (sendRow id sendAt r).status = Status.sent ∧
      (sendRow id sendAt r).claimedBy = none ∧
      (sendRow id sendAt r).claimedAt = none ∧
      (sendRow id sendAt r).retryCount = r.retryCount ∧
      (sendRow id sendAt r).payload = r.payload) ∧
    ((∀ r ∈ table, r.id ≠ id) → storeSend id sendAt table = table) := by
  refine ⟨?_, ?_, ?_⟩
  · simp only [storeSend, List.map_map]
    exact List.map_congr_left fun r _ => sendRow_idem id sendAt r
  · intro r _ hid _
    simp [sendRow, hid]
  · intro h
    simp only [storeSend]
    have h2 : table.map (sendRow id sendAt) = table.map (fun r => r) :=
      List.map_congr_left fun r hr => by simp [sendRow, h r hr]
    rw [h2]
    simp

/-- Witness for `storeSend_idempotent` on a one-row table whose row is
already sent: repeating the call is a no-op, the row stays sent with null
claims, and a `Send` against an absent id leaves the table unchanged. -/
theorem storeSend_idempotent_witness :
    (storeSend 5 99 (storeSend 5 99
        [⟨5, "t", none, [2], Status.sent, 1, 0, none, none, 0, some 9⟩]) =
      storeSend 5 99 [⟨5, "t", none, [2], Status.sent, 1, 0, none, none, 0, some 9⟩]) ∧
    (sendRow 5 99 ⟨5, "t", none, [2], Status.sent, 1, 0, none, none, 0, some 9⟩).status =
      Status.sent ∧
    storeSend 7 99 [⟨5, "t", none, [2], Status.sent, 1, 0, none, none, 0, some 9⟩] =
      [⟨5, "t", none, [2], Status.sent, 1, 0, none, none, 0, some 9⟩] :=
  ⟨(storeSend_idempotent 5 99
      [⟨5, "t", none, [2], Status.sent, 1, 0, none, none, 0, some 9⟩]).1,
    ((storeSend_idempotent 5 99
        [⟨5, "t", none, [2], Status.sent, 1, 0, none, none, 0, some 9⟩]).2.1
      ⟨5, "t", none, [2], Status.sent, 1, 0, none, none, 0, some 9⟩
      (List.mem_singleton.mpr rfl) rfl rfl).1,
    (storeSend_idempotent 7 99
        [⟨5, "t", none, [2], Status.sent, 1, 0, none, none, 0, some 9⟩]).2.2
      (by intro r hr; rw [List.mem_singleton.mp hr]; decide)⟩

theorem claimSelect_sublist (now limit : ℤ) (table : List Row) :
    (claimSelect now limit table).Sublist table :=
  (List.take_sublist _ _).trans (List.filter_sublist table)

theorem mem_claimSelect_iff_id {now limit : ℤ} {table : List Row}
    (hsort : (table.map Row.id).Pairwise (· < ·)) {r : Row} (hr : r ∈ table) :
    r.id ∈ (claimSelect now limit table).map Row.id ↔ r ∈ claimSelect now limit table := by
  constructor
  · intro h
    obtain ⟨r2, hr2, hid⟩ := List.mem_map.mp h
    have hr2t : r2 ∈ table := (claimSelect_sublist now limit table).mem hr2
    have hnd : (table.map Row.id).Nodup := hsort.imp fun h => ne_of_lt h
    have heq := List.inj_on_of_nodup_map hnd hr2t hr hid
    rwa [heq] at hr2
  · intro h
    exact List.mem_map_of_mem Row.id h

/-- C2 fails as stated: the `ORDER BY id` of the adapters' SQL applies
only to the candidate CTE, while the row order of Postgres/SQLite's
`UPDATE ... RETURNING` and MySQL's un-`ORDER`ed `SELECT ... WHERE id IN`
is unspecified, and neither the scan loop nor the relay sorts.  With a
driver yielding the two claimed rows in reversed order — a permutation
of exactly the claimed rows, which is all the SQL guarantees — the
returned envelopes have ids 2, 1: not ascending. -/
theorem storeClaim_c2_counterexample :
    ([⟨2, "b", none, [], Status.pending, 0, 5, none, none, 0, none⟩,
      ⟨1, "a", none, [], Status.pending, 0, 5, none, none, 0, none⟩] :
        List Row).Perm
      [⟨1, "a", none, [], Status.pending, 0, 5, none, none, 0, none⟩,
       ⟨2, "b", none, [], Status.pending, 0, 5, none, none, 0, none⟩] ∧
    (storeClaim "w" 2 60 10 List.reverse
        [⟨1, "a", none, [], Status.pending, 0, 5, none, none, 0, none⟩,
         ⟨2, "b", none, [], Status.pending, 0, 5, none, none, 0, none⟩]).2 =
      .ok [toEnv ⟨2, "b", none, [], Status.pending, 0, 5, none, none, 0, none⟩,
           toEnv ⟨1, "a", none, [], Status.pending, 0, 5, none, none, 0, none⟩] ∧
    ¬ (([toEnv ⟨2, "b", none, [], Status.pending, 0, 5, none, none, 0, none⟩,
         toEnv ⟨1, "a", none, [], Status.pending, 0, 5, none, none, 0, none⟩].map
          Envelope.id).Pairwise (· < ·)) :=
  ⟨List.Perm.swap _ _ _, rfl, by decide⟩

/-- C2 amended: with a positive limit, `Claim(workerID, limit, leaseTTL)`
on an id-sorted table selects exactly the first (up to `limit`, in
ascending id order) rows with `status ∈ {pending, retry, sending}` and
`next_retry_at ≤ now`; each selected row becomes `status = sending`,
`claimed_by = workerID`, `claimed_at = now`,
`next_retry_at = now + leaseTTL` with its other fields unchanged
(`leaseRow` updates only those four fields); every unselected row is
unchanged; and the returned envelopes carry exactly those rows'
`(id, topic, key, payload, retry_count, created_at)` projections — as a
permutation, in the database's unspecified return order. -/
theorem storeClaim_spec (workerID : String) (limit leaseTTL now : ℤ)
    (retOrder : List Row → List Row) (table : List Row)
    (hsort : (table.map Row.id).Pairwise (· < ·)) (hlim : 0 < limit)
    (hperm : (retOrder (claimSelect now limit table)).Perm
      (claimSelect now limit table)) :
    (storeClaim workerID limit leaseTTL now retOrder table).2 =
      .ok ((retOrder (claimSelect now limit table)).map toEnv) ∧
    (∀ envs, (storeClaim workerID limit leaseTTL now retOrder table).2 = .ok envs →
      envs.Perm ((claimSelect now limit table).map toEnv)) ∧
    (storeClaim workerID limit leaseTTL now retOrder table).1 =
      table.map (fun r =>
        if r ∈ claimSelect now limit table
        then leaseRow workerID now (now + leaseTTL) r
        else r) := by
  have hneg : ¬limit ≤ 0 := by omega
  refine ⟨?_, ?_, ?_⟩
  · simp only [storeClaim, if_neg hneg]
  · intro envs heq
    simp only [storeClaim, if_neg hneg] at heq
    have henvs : envs = (retOrder (claimSelect now limit table)).map toEnv := by
      injection heq with h
      exact h.symm
    subst henvs
    exact hperm.map toEnv
  · simp only [storeClaim, if_neg hneg]
    refine List.map_congr_left fun r hr => ?_
    by_cases hmem : r ∈ claimSelect now limit table
    · rw [if_pos ((mem_claimSelect_iff_id hsort hr).mpr hmem), if_pos hmem]
    · rw [if_neg (fun hc => hmem ((mem_claimSelect_iff_id hsort hr).mp hc)),
        if_neg hmem]

/-- Witness for `storeClaim_spec`: a three-row table (ids 1 < 2 < 3, the
middle row already sent and thus ineligible) claimed with limit 2 under
an identity driver order: rows 1 and 3 are leased, row 2 untouched, the
envelopes are the projections of rows 1 and 3. -/
theorem storeClaim_spec_witness :
    (storeClaim "w" 2 60 10 (fun l => l)
        [⟨1, "a", none, [], Status.pending, 0, 5, none, none, 0, none⟩,
         ⟨2, "b", none, [], Status.sent, 0, 5, none, none, 0, some 7⟩,
         ⟨3, "c", none, [], Status.retry, 1, 9, none, none, 0, none⟩]).2 =
      .ok [toEnv ⟨1, "a", none, [], Status.pending, 0, 5, none, none, 0, none⟩,
           toEnv ⟨3, "c", none, [], Status.retry, 1, 9, none, none, 0, none⟩] ∧
    (storeClaim "w" 2 60 10 (fun l => l)
        [⟨1, "a", none, [], Status.pending, 0, 5, none, none, 0, none⟩,
         ⟨2, "b", none, [], Status.sent, 0, 5, none, none, 0, some 7⟩,
         ⟨3, "c", none, [], Status.retry, 1, 9, none, none, 0, none⟩]).1 =
      [leaseRow "w" 10 70 ⟨1, "a", none, [], Status.pending, 0, 5, none, none, 0, none⟩,
       ⟨2, "b", none, [], Status.sent, 0, 5, none, none, 0, some 7⟩,
       leaseRow "w" 10 70 ⟨3, "c", none, [], Status.retry, 1, 9, none, none, 0, none⟩] := by
  have h := storeClaim_spec "w" 2 60 10 (fun l => l)
    [⟨1, "a", none, [], Status.pending, 0, 5, none, none, 0, none⟩,
     ⟨2, "b", none, [], Status.sent, 0, 5, none, none, 0, some 7⟩,
     ⟨3, "c", none, [], Status.retry, 1, 9, none, none, 0, none⟩]
    (by decide) (by decide) (List.Perm.refl _)
  refine ⟨?_, ?_⟩
  · rw [h.1]
    rfl
  · rw [h.2.2]
    rfl

/-- C8: a valid message (non-empty topic, present body, encodable via the
abstract codec) inserted with `Add` and then leased with `Claim` comes
back as an envelope whose topic equals the message's topic, whose key is
the message's key (NULL when the message's key is empty, as `Add`
inserts), and whose payload decodes losslessly back to the body.  The
lossless-decode hypothesis on the codec is `json.Marshal`/`Unmarshal`'s
contract for encodable bodies; the store round-trips the payload bytes
unchanged. -/
theorem add_claim_roundtrip {β : Type} (marshal : β → List ℕ)
    (unmarshal : List ℕ → Option β)
    (hcodec : ∀ b, unmarshal (marshal b) = some b)
    (m : Message β) (b : β) (htopic : m.topic ≠ "") (hbody : m.body = some b)
    (workerID : String) (limit leaseTTL t0 t1 : ℤ) (hlim : 0 < limit)
    (ht : t0 ≤ t1) (retOrder : List Row → List Row)
    (hret : ∀ l : List Row, (retOrder l).Perm l) :
    ∃ row : Row, storeAdd marshal t0 m [] = .ok [row] ∧
      ∃ env : Envelope,
        (storeClaim workerID limit leaseTTL t1 retOrder [row]).2 = .ok [env] ∧
        env.topic = m.topic ∧
        env.key = (if m.key = "" then none else some m.key) ∧
        unmarshal env.payload = some b := by
  refine ⟨⟨1, m.topic, if m.key = "" then none else some m.key, marshal b,
    Status.pending, 0, t0, none, none, t0, none⟩, ?_, ?_⟩
  · simp [storeAdd, marshalPayload, messageValidate, htopic, hbody, nextId]
  · have helig : eligible t1 ⟨1, m.topic, if m.key = "" then none else some m.key,
        marshal b, Status.pending, 0, t0, none, none, t0, none⟩ = true := by
      simp [eligible, ht]
    have hsel : claimSelect t1 limit
        [⟨1, m.topic, if m.key = "" then none else some m.key, marshal b,
          Status.pending, 0, t0, none, none, t0, none⟩] =
        [⟨1, m.topic, if m.key = "" then none else some m.key, marshal b,
          Status.pending, 0, t0, none, none, t0, none⟩] := by
      simp only [claimSelect, List.filter, helig]
      exact List.take_of_length_le (by simp; omega)
    refine ⟨toEnv ⟨1, m.topic, if m.key = "" then none else some m.key, marshal b,
      Status.pending, 0, t0, none, none, t0, none⟩, ?_, rfl, rfl, hcodec b⟩
    have hid : retOrder [⟨1, m.topic, if m.key = "" then none else some m.key,
        marshal b, Status.pending, 0, t0, none, none, t0, none⟩] =
        [⟨1, m.topic, if m.key = "" then none else some m.key, marshal b,
          Status.pending, 0, t0, none, none, t0, none⟩] :=
      List.perm_singleton.mp (hret _)
    simp only [storeClaim, if_neg (by omega : ¬limit ≤ 0), hsel, hid]
    rfl

/-- Witness for `add_claim_roundtrip` with body 5 under the codec
`marshal n = [n]`, `unmarshal = head?`. -/
theorem add_claim_roundtrip_witness :
    ∃ row : Row, storeAdd (fun n => [n]) 0 ⟨"t", "k", some 5⟩ [] = .ok [row] ∧
      ∃ env : Envelope, (storeClaim "w" 1 60 10 (fun l => l) [row]).2 = .ok [env] ∧
        env.topic = "t" ∧
        env.key = (if ("k" : String) = "" then none else some "k") ∧
        env.payload.head? = some 5 := by
  obtain ⟨row, h1, env, h2, h3, h4, h5⟩ :=
    add_claim_roundtrip (β := ℕ) (fun n => [n]) (fun l => l.head?)
      (fun b => rfl) ⟨"t", "k", some 5⟩ 5 (by decide) rfl "w" 1 60 0 10
      (by decide) (by decide) (fun l => l) (fun l => List.Perm.refl l)
  exact ⟨row, h1, env, h2, h3, h4, h5⟩

end Txoutbox
